import Mathlib

/-!
Shallow embedding of the message-stream controller of `src/hooks/useChat.ts`
(the React hook `useChat`): the transcript data model, the server-sent-event
decode loop inside `sendMessage`, the payload construction, and the public
operations `sendMessage`, `stopGeneration`, `clearMessages`, `isStreaming`.
Byte chunks are modelled as the text `TextDecoder.decode(value, {stream:true})`
produces for them (the inputs of interest are ASCII, where the decoding is the
identity); `JSON.parse` is modelled by a small executable JSON parser; the
opaque string ids (`Date.now().toString() + Math.random()`) are modelled as
`Nat` parameters with explicit freshness hypotheses.
-/

namespace PromptPond

/-- `role: 'user' | 'assistant'` of the `Message` interface. -/
inductive Role where
  | user
  | assistant
deriving Repr, DecidableEq

/-- A transcript record (interface `Message` in `useChat.ts`): opaque string id
modelled as `Nat`, `timestamp: Date` as `Nat`, the optional field
`isStreaming?: boolean` as a `Bool` whose absence is `false`. -/
structure Msg where
  id : Nat
  role : Role
  content : String
  timestamp : Nat
  streaming : Bool
deriving Repr, DecidableEq

/-! ### JSON values and a model of `JSON.parse`

A number keeps its source literal (the decode loop never does arithmetic on
one, it at most coerces it back to text). -/

inductive Json where
  | null
  | bool (b : Bool)
  | num (lit : String)
  | str (s : String)
  | arr (elems : List Json)
  | obj (members : List (String × Json))
deriving Repr

/-- The opening-brace character, written by code point. -/
def lbrace : Char := Char.ofNat 123

/-- The closing-brace character, written by code point. -/
def rbrace : Char := Char.ofNat 125

def isJsonWs (c : Char) : Bool :=
  c = ' ' || c = '\t' || c = '\n' || c = '\r'

def skipWs : List Char → List Char
  | [] => []
  | c :: cs => if isJsonWs c then skipWs cs else c :: cs

def hexVal (c : Char) : Option Nat :=
  if c.isDigit then some (c.toNat - 48)
  else if 'a' ≤ c ∧ c ≤ 'f' then some (c.toNat - 87)
  else if 'A' ≤ c ∧ c ≤ 'F' then some (c.toNat - 55)
  else none

/-- Parse the body of a JSON string, the opening quote already consumed;
returns the decoded text and the remaining input. -/
def parseStringBody : List Char → String → Option (String × List Char)
  | [], _ => none
  | c :: cs, acc =>
    if c = '"' then some (acc, cs)
    else if c = '\\' then
      match cs with
      | [] => none
      | e :: cs2 =>
        if e = '"' then parseStringBody cs2 (acc.push '"')
        else if e = '\\' then parseStringBody cs2 (acc.push '\\')
        else if e = '/' then parseStringBody cs2 (acc.push '/')
        else if e = 'b' then parseStringBody cs2 (acc.push (Char.ofNat 8))
        else if e = 'f' then parseStringBody cs2 (acc.push (Char.ofNat 12))
        else if e = 'n' then parseStringBody cs2 (acc.push '\n')
        else if e = 'r' then parseStringBody cs2 (acc.push '\r')
        else if e = 't' then parseStringBody cs2 (acc.push '\t')
        else if e = 'u' then
          match cs2 with
          | h1 :: h2 :: h3 :: h4 :: cs3 =>
            match hexVal h1, hexVal h2, hexVal h3, hexVal h4 with
            | some a, some b, some c3, some d =>
              parseStringBody cs3
                (acc.push (Char.ofNat (((a * 16 + b) * 16 + c3) * 16 + d)))
            | _, _, _, _ => none
          | _ => none
        else none
    else if c.toNat < 32 then none
    else parseStringBody cs (acc.push c)

def takeDigits : List Char → List Char × List Char
  | [] => ([], [])
  | c :: cs =>
    if c.isDigit then
      let p := takeDigits cs
      (c :: p.1, p.2)
    else ([], c :: cs)

def parseFracPart : List Char → Option (List Char × List Char)
  | [] => some ([], [])
  | c :: rest =>
    if c = '.' then
      let p := takeDigits rest
      if p.1.isEmpty then none else some (c :: p.1, p.2)
    else some ([], c :: rest)

def parseExpPart : List Char → Option (List Char × List Char)
  | [] => some ([], [])
  | c :: rest =>
    if c = 'e' ∨ c = 'E' then
      let q :=
        match rest with
        | s :: r => if s = '+' ∨ s = '-' then ([s], r) else (([] : List Char), rest)
        | [] => ([], rest)
      let p := takeDigits q.2
      if p.1.isEmpty then none else some (c :: (q.1 ++ p.1), p.2)
    else some ([], c :: rest)

def parseNumberLit (cs : List Char) : Option (String × List Char) :=
  let s :=
    match cs with
    | c :: rest => if c = '-' then (([c] : List Char), rest) else ([], cs)
    | [] => ([], cs)
  let ip := takeDigits s.2
  if ip.1.isEmpty then none
  else if 1 < ip.1.length ∧ ip.1.headI = '0' then none
  else
    match parseFracPart ip.2 with
    | none => none
    | some fp =>
      match parseExpPart fp.2 with
      | none => none
      | some ep => some (String.mk (s.1 ++ ip.1 ++ fp.1 ++ ep.1), ep.2)

/-- Consume an exact token at the head of the input. -/
def dropToken : List Char → List Char → Option (List Char)
  | [], cs => some cs
  | _ :: _, [] => none
  | t :: ts, c :: cs => if t = c then dropToken ts cs else none

/-! ### JavaScript string primitives used by the hook, implemented over the
character list so they compute by structural recursion. -/

/-- The whitespace class of JavaScript `String.prototype.trim` (the ASCII
part, which is all the inputs of interest contain). -/
def jsWhitespace (c : Char) : Bool :=
  c = ' ' || c = '\t' || c = '\n' || c = '\r' ||
  c = Char.ofNat 11 || c = Char.ofNat 12 || c = Char.ofNat 160

/-- `s.trim()`. -/
def jsTrim (s : String) : String :=
  String.mk (((s.data.dropWhile jsWhitespace).reverse.dropWhile
    jsWhitespace).reverse)

def splitLinesAux : List Char → List Char → List String
  | [], acc => [String.mk acc.reverse]
  | c :: cs, acc =>
    if c = '\n' then String.mk acc.reverse :: splitLinesAux cs []
    else splitLinesAux cs (c :: acc)

/-- `chunk.split('\n')` (keeps empty pieces, like JS). -/
def jsSplitNewline (s : String) : List String := splitLinesAux s.data []

/-- `s.startsWith(p)`. -/
def strStartsWith (s p : String) : Bool := (dropToken p.data s.data).isSome

/-- `s.slice(n)` for a non-negative `n` (the inputs are ASCII, where UTF-16
units and characters coincide). -/
def strDrop (s : String) (n : Nat) : String := String.mk (s.data.drop n)

mutual

def parseValue : Nat → List Char → Option (Json × List Char)
  | 0, _ => none
  | fuel + 1, cs =>
    match skipWs cs with
    | [] => none
    | c :: rest =>
      if c = '"' then
        match parseStringBody rest "" with
        | some p => some (Json.str p.1, p.2)
        | none => none
      else if c = lbrace then
        match skipWs rest with
        | c2 :: r2 =>
          if c2 = rbrace then some (Json.obj [], r2)
          else parseMembers fuel (c2 :: r2) []
        | [] => none
      else if c = '[' then
        match skipWs rest with
        | c2 :: r2 =>
          if c2 = ']' then some (Json.arr [], r2)
          else parseElems fuel (c2 :: r2) []
        | [] => none
      else if c = 't' then
        match dropToken "true".data (c :: rest) with
        | some r => some (Json.bool true, r)
        | none => none
      else if c = 'f' then
        match dropToken "false".data (c :: rest) with
        | some r => some (Json.bool false, r)
        | none => none
      else if c = 'n' then
        match dropToken "null".data (c :: rest) with
        | some r => some (Json.null, r)
        | none => none
      else
        match parseNumberLit (c :: rest) with
        | some p => some (Json.num p.1, p.2)
        | none => none

def parseMembers : Nat → List Char → List (String × Json) →
    Option (Json × List Char)
  | 0, _, _ => none
  | fuel + 1, cs, acc =>
    match skipWs cs with
    | c :: rest =>
      if c = '"' then
        match parseStringBody rest "" with
        | some kp =>
          match skipWs kp.2 with
          | c1 :: r2 =>
            if c1 = ':' then
              match parseValue fuel r2 with
              | some vp =>
                match skipWs vp.2 with
                | c2 :: r4 =>
                  if c2 = ',' then parseMembers fuel r4 (acc ++ [(kp.1, vp.1)])
                  else if c2 = rbrace then
                    some (Json.obj (acc ++ [(kp.1, vp.1)]), r4)
                  else none
                | [] => none
              | none => none
            else none
          | [] => none
        | none => none
      else none
    | [] => none

def parseElems : Nat → List Char → List Json → Option (Json × List Char)
  | 0, _, _ => none
  | fuel + 1, cs, acc =>
    match parseValue fuel cs with
    | some vp =>
      match skipWs vp.2 with
      | c :: r2 =>
        if c = ',' then parseElems fuel r2 (acc ++ [vp.1])
        else if c = ']' then some (Json.arr (acc ++ [vp.1]), r2)
        else none
      | [] => none
    | none => none

end

/-- Model of `JSON.parse(data)`: `some` a value exactly when the whole input is
one JSON value (surrounded by optional whitespace), `none` when it would
throw. The fuel is generous: each nesting level costs at most two units. -/
def jsonParse (s : String) : Option Json :=
  match parseValue (2 * s.length + 8) s.data with
  | some p => if (skipWs p.2).isEmpty then some p.1 else none
  | none => none

/-! ### The content chain `parsed.choices?.[0]?.delta?.content || ''` -/

/-- JavaScript property access on a parsed JSON value: a member lookup on an
object (last duplicate key wins, as in `JSON.parse`), `undefined` (= `none`)
otherwise. -/
def Json.getField : Json → String → Option Json
  | Json.obj kvs, k => (kvs.reverse.find? (fun kv => kv.fst == k)).map Prod.snd
  | _, _ => none

/-- `x?.[0]`: the first element of an array, the `"0"` member of an object;
anything else yields `undefined` (a string's `[0]` would yield its first
character, but the subsequent `.delta` lookup on it is `undefined` anyway, so
the collapse to `none` here is extensionally faithful). -/
def jsIndex0 : Json → Option Json
  | Json.arr elems => elems.head?
  | Json.obj kvs => (kvs.reverse.find? (fun kv => kv.fst == "0")).map Prod.snd
  | _ => none

/-- The optional chain `parsed.choices?.[0]?.delta?.content`. -/
def chainContent (j : Json) : Option Json :=
  (((j.getField "choices").bind jsIndex0).bind
      (fun d => Json.getField d "delta")).bind
    (fun d => Json.getField d "content")

/-- Whether the mantissa of a number literal is all zeroes (so the JS number is
`0`, which is falsy). -/
def numLitIsZero (lit : String) : Bool :=
  (lit.data.takeWhile (fun c => c ≠ 'e' ∧ c ≠ 'E')).all
    (fun c => !c.isDigit || c == '0')

/-- JavaScript truthiness of a parsed JSON value. -/
def jsonTruthy : Json → Bool
  | Json.null => false
  | Json.bool b => b
  | Json.num lit => !numLitIsZero lit
  | Json.str s => s != ""
  | Json.arr _ => true
  | Json.obj _ => true

def joinComma : List String → String
  | [] => ""
  | [x] => x
  | x :: y :: rest => x ++ "," ++ joinComma (y :: rest)

/-- JavaScript string coercion of a parsed JSON value with explicit recursion
fuel (array elements render recursively, a `null` element as the empty
string). -/
def jsToStringF : Nat → Json → String
  | _, Json.null => "null"
  | _, Json.bool true => "true"
  | _, Json.bool false => "false"
  | _, Json.num lit => lit
  | _, Json.str s => s
  | _, Json.obj _ => "[object Object]"
  | 0, Json.arr _ => ""
  | fuel + 1, Json.arr elems =>
    joinComma (elems.map (fun e =>
      match e with
      | Json.null => ""
      | _ => jsToStringF fuel e))


/-- The fragment the loop body appends for one successfully parsed payload:
`const content = parsed.choices?.[0]?.delta?.content || ''` then
`if (content) \x7b accumulatedContent += content ... \x7d`. -/
def fragmentOf (fuel : Nat) (j : Json) : Option String :=
  match chainContent j with
  | none => none
  | some v => if jsonTruthy v then some (jsToStringF fuel v) else none

/-! ### The decode loop of `sendMessage` (lines 81-117) -/

/-- Processing of a single line of a chunk:
`if (line.startsWith('data: ')) \x7b const data = line.slice(6); if (data ===
'[DONE]') continue; try \x7b ... \x7d catch \x7b skip \x7d \x7d`. `some f`
exactly when the line makes the loop body append fragment `f`. -/
def decodeLine (line : String) : Option String :=
  if strStartsWith line "data: " then
    let data := strDrop line 6
    if data = "[DONE]" then none
    else
      match jsonParse data with
      | none => none
      | some parsed => fragmentOf data.length parsed
  else none

/-- `const lines = chunk.split('\n').filter(line => line.trim() !== '')`. -/
def chunkLines (chunk : String) : List String :=
  (jsSplitNewline chunk).filter (fun l => jsTrim l != "")

/-- The fragments one chunk contributes, in order. -/
def decodeLines (lines : List String) : List String :=
  lines.filterMap decodeLine

/-- The whole `while (true) \x7b ... reader.read() ... \x7d` loop over a finite
byte source, as the ordered list of fragments it appends: each chunk is split
and filtered on its own — the code keeps no cross-chunk line buffer. -/
def decodeChunks (chunks : List String) : List String :=
  (chunks.map (fun ch => decodeLines (chunkLines ch))).flatten

/-! ### Transcript mutations of `useChat` -/

/-- The user record of a turn (lines 20-25): `content: content.trim()`,
`isStreaming` absent. -/
def userRecord (uid ts : Nat) (text : String) : Msg :=
  ⟨uid, Role.user, jsTrim text, ts, false⟩

/-- The assistant placeholder (lines 30-37): empty content, `isStreaming:
true`. -/
def placeholderRecord (aid ts : Nat) : Msg :=
  ⟨aid, Role.assistant, "", ts, true⟩

/-- One fragment commit (lines 103-109): `prev.map(msg => msg.id ===
assistantMessageId ? \x7b ...msg, content: accumulatedContent, isStreaming:
true \x7d : msg)` where `acc` is the accumulated content so far. -/
def applyFragment (aid : Nat) (acc : String) (ms : List Msg) : List Msg :=
  ms.map (fun m =>
    if m.id = aid then { m with content := acc, streaming := true } else m)

/-- Sequential application of a list of fragments, threading
`accumulatedContent` (seeded by `acc`). -/
def applyFrags (aid : Nat) (acc : String) (frags : List String)
    (ms : List Msg) : List Msg :=
  match frags with
  | [] => ms
  | f :: rest => applyFrags aid (acc ++ f) rest (applyFragment aid (acc ++ f) ms)

/-- Finalisation (lines 120-126, and identically lines 132-138 on abort):
`prev.map(msg => msg.id === assistantMessageId ? \x7b ...msg, isStreaming:
false \x7d : msg)`. -/
def markDone (aid : Nat) (ms : List Msg) : List Msg :=
  ms.map (fun m => if m.id = aid then { m with streaming := false } else m)

/-- Failure cleanup (line 148): `prev.filter(msg => msg.id !==
assistantMessageId)`. -/
def removeRecord (aid : Nat) (ms : List Msg) : List Msg :=
  ms.filter (fun m => m.id != aid)

/-- `clearMessages` (lines 161-163): `setMessages([])`. -/
def clearMessages (_ms : List Msg) : List Msg := []

/-- `stopGeneration` (lines 155-159) signals the abort token and never touches
the transcript; its transcript effect is the identity, its effect on the
stream is the `aborted` flag of `NetOutcome.stream`. -/
def stopGeneration (ms : List Msg) : List Msg := ms

/-- Derived value (line 165): `messages.some(msg => msg.isStreaming)`. -/
def isStreaming (ms : List Msg) : Bool :=
  ms.any (fun m => m.streaming)

/-! ### Outbound payload (lines 46-51) -/

/-- `msg => msg.role === 'user' || (!msg.isStreaming && msg.content.trim())`. -/
def apiFilter (m : Msg) : Bool :=
  m.role == Role.user || (!m.streaming && jsTrim m.content != "")

/-- `[...messages, userMessage].filter(...).map(msg => (\x7b role: msg.role,
content: msg.content \x7d))`: `prior` is the `messages` state captured when
`sendMessage` began (it contains neither of the turn's fresh records). -/
def apiMessages (prior : List Msg) (userMessage : Msg) : List (Role × String) :=
  ((prior ++ [userMessage]).filter apiFilter).map (fun m => (m.role, m.content))

/-- The payload membership rule in the words of the spec sentence: role=user,
or role=assistant with `streaming = false` and non-empty content. -/
def specPayloadFilter (m : Msg) : Bool :=
  m.role == Role.user || (!m.streaming && m.content != "")

/-- The payload as the spec sentence describes it. -/
def specPayload (prior : List Msg) (userMessage : Msg) : List (Role × String) :=
  ((prior ++ [userMessage]).filter specPayloadFilter).map
    (fun m => (m.role, m.content))

/-- The payload rule amended: content non-blank (trimmed non-empty) instead of
non-empty. -/
def specPayloadTrimFilter (m : Msg) : Bool :=
  m.role == Role.user || (!m.streaming && jsTrim m.content != "")

/-- The payload under the amended rule. -/
def specPayloadTrim (prior : List Msg) (userMessage : Msg) :
    List (Role × String) :=
  ((prior ++ [userMessage]).filter specPayloadTrimFilter).map
    (fun m => (m.role, m.content))

/-! ### One `sendMessage` turn -/

/-- Outcome of the network interaction of one turn. `stream chunks aborted`:
the body delivers `chunks` and then either reports `done` (`aborted = false`)
or, because the abort token was signalled, makes the next `read()` throw
`AbortError` (`aborted = true`). -/
inductive NetOutcome where
  | httpError
  | noReader
  | stream (chunks : List String) (aborted : Bool)
deriving Repr, DecidableEq

/-- Observable outcome of a turn: final transcript, number of error toasts
emitted, and the request payload (`none` = no network call was made). -/
structure TurnResult where
  messages : List Msg
  toasts : Nat
  request : Option (List (Role × String))
deriving Repr, DecidableEq

/-- One complete `sendMessage(content)` turn (lines 17-153), with the fresh
ids `uid`/`aid` and the timestamp `ts` as parameters and the network
interaction summarised by `net`. The `aborted` branch and the natural-end
branch of the source finalise with the same `map`, and neither toasts. -/
def sendMessage (prior : List Msg) (uid aid ts : Nat) (text : String)
    (net : NetOutcome) : TurnResult :=
  if jsTrim text = "" then ⟨prior, 0, none⟩
  else
    let userMessage := userRecord uid ts text
    let afterPlaceholder := (prior ++ [userMessage]) ++ [placeholderRecord aid ts]
    let payload := apiMessages prior userMessage
    match net with
    | NetOutcome.httpError => ⟨removeRecord aid afterPlaceholder, 1, some payload⟩
    | NetOutcome.noReader => ⟨removeRecord aid afterPlaceholder, 1, some payload⟩
    | NetOutcome.stream chunks aborted =>
      let streamed := applyFrags aid "" (decodeChunks chunks) afterPlaceholder
      if aborted then ⟨markDone aid streamed, 0, some payload⟩
      else ⟨markDone aid streamed, 0, some payload⟩

/-! ### Snapshot reachability

`CodeReach` is the code as written: nothing prevents a second `sendMessage`
from starting while another turn is still streaming (each micro-step below is
one transcript commit the source performs between two suspension points).
`SeqReach` additionally tracks the in-flight turn and admits a new turn only
when none is in flight. -/

def ids (ms : List Msg) : List Nat := ms.map Msg.id

def countStreaming (ms : List Msg) : Nat :=
  (ms.filter (fun m => m.streaming)).length

inductive CodeReach : List Msg → Prop where
  | init : CodeReach []
  | send (s : List Msg) (uid aid ts : Nat) (text : String) :
      CodeReach s → jsTrim text ≠ "" → uid ∉ ids s → aid ∉ ids s → uid ≠ aid →
      CodeReach (s ++ [userRecord uid ts text, placeholderRecord aid ts])
  | frag (s : List Msg) (aid : Nat) (acc : String) :
      CodeReach s → CodeReach (applyFragment aid acc s)
  | finalizeTurn (s : List Msg) (aid : Nat) :
      CodeReach s → CodeReach (markDone aid s)
  | failTurn (s : List Msg) (aid : Nat) :
      CodeReach s → CodeReach (removeRecord aid s)
  | clear (s : List Msg) : CodeReach s → CodeReach []

inductive SeqReach : List Msg → Option Nat → Prop where
  | init : SeqReach [] none
  | send (s : List Msg) (uid aid ts : Nat) (text : String) :
      SeqReach s none → jsTrim text ≠ "" → uid ∉ ids s → aid ∉ ids s →
      uid ≠ aid →
      SeqReach (s ++ [userRecord uid ts text, placeholderRecord aid ts])
        (some aid)
  | frag (s : List Msg) (aid : Nat) (acc : String) :
      SeqReach s (some aid) → SeqReach (applyFragment aid acc s) (some aid)
  | finalizeTurn (s : List Msg) (aid : Nat) :
      SeqReach s (some aid) → SeqReach (markDone aid s) none
  | cancelTurn (s : List Msg) (aid : Nat) :
      SeqReach s (some aid) → SeqReach (markDone aid s) none
  | failTurn (s : List Msg) (aid : Nat) :
      SeqReach s (some aid) → SeqReach (removeRecord aid s) none
  | clear (s : List Msg) (t : Option Nat) : SeqReach s t → SeqReach [] t
  | stop (s : List Msg) (t : Option Nat) :
      SeqReach s t → SeqReach (stopGeneration s) t

/-- The streaming discipline tied to the in-flight turn: with no turn in
flight nothing streams; during a turn only its placeholder id may stream. -/
def TurnInv (s : List Msg) : Option Nat → Prop
  | none => ∀ m ∈ s, m.streaming = false
  | some a => ∀ m ∈ s, m.streaming = true → m.id = a

/-! ### Helper lemmas -/

theorem ids_nil : ids [] = [] := rfl

theorem ids_cons (m : Msg) (ms : List Msg) : ids (m :: ms) = m.id :: ids ms :=
  rfl

theorem ids_append (xs ys : List Msg) : ids (xs ++ ys) = ids xs ++ ids ys :=
  List.map_append _ _ _

theorem map_guard_not_mem (f : Msg → Msg) (aid : Nat) (ms : List Msg)
    (h : aid ∉ ids ms) :
    ms.map (fun m => if m.id = aid then f m else m) = ms := by
  induction ms with
  | nil => rfl
  | cons m rest ih =>
    rw [ids_cons, List.mem_cons] at h
    push_neg at h
    have h1 : ¬ m.id = aid := fun e => h.1 e.symm
    simp only [List.map_cons, if_neg h1]
    rw [ih h.2]

theorem ids_map_guard (f : Msg → Msg) (hf : ∀ m, (f m).id = m.id) (aid : Nat)
    (ms : List Msg) :
    ids (ms.map (fun m => if m.id = aid then f m else m)) = ids ms := by
  induction ms with
  | nil => rfl
  | cons m rest ih =>
    simp only [List.map_cons, ids_cons]
    rw [ih]
    by_cases h : m.id = aid
    · rw [if_pos h, hf m]
    · rw [if_neg h]

theorem applyFragment_not_mem (aid : Nat) (acc : String) (ms : List Msg)
    (h : aid ∉ ids ms) : applyFragment aid acc ms = ms :=
  map_guard_not_mem (fun m => { m with content := acc, streaming := true })
    aid ms h

theorem markDone_not_mem (aid : Nat) (ms : List Msg) (h : aid ∉ ids ms) :
    markDone aid ms = ms :=
  map_guard_not_mem (fun m => { m with streaming := false }) aid ms h

theorem ids_applyFragment (aid : Nat) (acc : String) (ms : List Msg) :
    ids (applyFragment aid acc ms) = ids ms :=
  ids_map_guard (fun m => { m with content := acc, streaming := true })
    (fun _ => rfl) aid ms

theorem ids_markDone (aid : Nat) (ms : List Msg) :
    ids (markDone aid ms) = ids ms :=
  ids_map_guard (fun m => { m with streaming := false }) (fun _ => rfl) aid ms

theorem applyFragment_append (aid : Nat) (acc : String) (xs ys : List Msg) :
    applyFragment aid acc (xs ++ ys) =
      applyFragment aid acc xs ++ applyFragment aid acc ys :=
  List.map_append _ _ _

theorem markDone_append (aid : Nat) (xs ys : List Msg) :
    markDone aid (xs ++ ys) = markDone aid xs ++ markDone aid ys :=
  List.map_append _ _ _

theorem applyFrags_nil (aid : Nat) (acc : String) (ms : List Msg) :
    applyFrags aid acc [] ms = ms := rfl

/-- Threading a nonempty fragment list through a transcript whose only record
with the placeholder id is its last element updates only that record: its
content becomes the fold of the fragments over the seed, `streaming` stays
`true`. -/
theorem applyFrags_last (aid : Nat) (xs : List Msg) (hxs : aid ∉ ids xs) :
    ∀ (frags : List String) (acc : String) (p : Msg), p.id = aid →
      frags ≠ [] →
      applyFrags aid acc frags (xs ++ [p]) =
        xs ++ [{ p with content := frags.foldl (fun a f => a ++ f) acc, streaming := true }] := by
  intro frags
  induction frags with
  | nil => intro _ _ _ hne; exact absurd rfl hne
  | cons f rest ih =>
    intro acc p hp _
    have hstep : applyFragment aid (acc ++ f) (xs ++ [p]) =
        xs ++ [{ p with content := acc ++ f, streaming := true }] := by
      rw [applyFragment_append, applyFragment_not_mem aid _ xs hxs]
      simp only [applyFragment, List.map_cons, List.map_nil, if_pos hp]
    show applyFrags aid (acc ++ f) rest (applyFragment aid (acc ++ f) (xs ++ [p]))
        = _
    rw [hstep]
    cases rest with
    | nil =>
      rw [applyFrags_nil]
      rfl
    | cons g rest2 =>
      rw [ih (acc ++ f) { p with content := acc ++ f, streaming := true } hp
        (by simp)]
      rfl

theorem markDone_last (aid : Nat) (xs : List Msg) (p : Msg)
    (hxs : aid ∉ ids xs) (hp : p.id = aid) :
    markDone aid (xs ++ [p]) = xs ++ [{ p with streaming := false }] := by
  rw [markDone_append, markDone_not_mem aid xs hxs]
  simp only [markDone, List.map_cons, List.map_nil, if_pos hp]

theorem removeRecord_not_mem (aid : Nat) (ms : List Msg)
    (h : aid ∉ ids ms) : removeRecord aid ms = ms := by
  induction ms with
  | nil => rfl
  | cons m rest ih =>
    rw [ids_cons, List.mem_cons] at h
    push_neg at h
    have h1 : (m.id != aid) = true := by
      simp only [bne_iff_ne, ne_eq]
      exact fun e => h.1 e.symm
    simp only [removeRecord, List.filter_cons, h1, if_pos]
    have := ih h.2
    simp only [removeRecord] at this
    rw [this]

theorem removeRecord_last (aid : Nat) (xs : List Msg) (p : Msg)
    (hxs : aid ∉ ids xs) (hp : p.id = aid) :
    removeRecord aid (xs ++ [p]) = xs := by
  have h2 := removeRecord_not_mem aid xs hxs
  simp only [removeRecord] at h2 ⊢
  simp [List.filter_append, List.filter_cons, hp, h2]

theorem mem_applyFragment_of_ne (aid : Nat) (acc : String) (m : Msg)
    (ms : List Msg) (hm : m ∈ ms) (h : m.id ≠ aid) :
    m ∈ applyFragment aid acc ms :=
  List.mem_map.mpr ⟨m, hm, if_neg h⟩

theorem mem_applyFrags_of_ne (aid : Nat) (m : Msg) (h : m.id ≠ aid) :
    ∀ (frags : List String) (acc : String) (ms : List Msg), m ∈ ms →
      m ∈ applyFrags aid acc frags ms := by
  intro frags
  induction frags with
  | nil => intro acc ms hm; exact hm
  | cons f rest ih =>
    intro acc ms hm
    exact ih (acc ++ f) _ (mem_applyFragment_of_ne aid (acc ++ f) m ms hm h)

theorem mem_markDone_of_ne (aid : Nat) (m : Msg) (ms : List Msg)
    (hm : m ∈ ms) (h : m.id ≠ aid) : m ∈ markDone aid ms :=
  List.mem_map.mpr ⟨m, hm, if_neg h⟩

theorem decodeLines_append (ls1 ls2 : List String) :
    decodeLines (ls1 ++ ls2) = decodeLines ls1 ++ decodeLines ls2 :=
  List.filterMap_append _ _ _

theorem decodeLine_none_of_parse_fail (line : String)
    (h : jsonParse (strDrop line 6) = none) : decodeLine line = none := by
  simp only [decodeLine]
  by_cases hs : strStartsWith line "data: "
  · rw [if_pos hs]
    by_cases hd : strDrop line 6 = "[DONE]"
    · rw [if_pos hd]
    · rw [if_neg hd, h]
  · rw [if_neg hs]

theorem countStreaming_eq_zero (ms : List Msg)
    (h : ∀ m ∈ ms, m.streaming = false) : countStreaming ms = 0 := by
  simp only [countStreaming, List.length_eq_zero, List.filter_eq_nil_iff]
  intro m hm
  simp [h m hm]

theorem length_le_one_of_const_id (l : List Msg) (a : Nat)
    (hnd : (ids l).Nodup) (hc : ∀ m ∈ l, m.id = a) : l.length ≤ 1 := by
  match l with
  | [] => simp
  | [_] => simp
  | m1 :: m2 :: rest =>
    exfalso
    rw [ids_cons, List.nodup_cons] at hnd
    apply hnd.1
    rw [ids_cons, List.mem_cons]
    left
    rw [hc m1 (by simp), hc m2 (by simp)]

theorem countStreaming_le_one (ms : List Msg) (a : Nat)
    (hnd : (ids ms).Nodup)
    (hinv : ∀ m ∈ ms, m.streaming = true → m.id = a) :
    countStreaming ms ≤ 1 := by
  apply length_le_one_of_const_id _ a
  · exact hnd.sublist (List.Sublist.map Msg.id (List.filter_sublist ms))
  · intro m hm
    have h2 := List.mem_filter.mp hm
    exact hinv m h2.1 h2.2

theorem ids_nodup_append_fresh (s : List Msg) (u p : Msg)
    (hnd : (ids s).Nodup) (hu : u.id ∉ ids s) (hp : p.id ∉ ids s)
    (hne : u.id ≠ p.id) : (ids (s ++ [u, p])).Nodup := by
  rw [ids_append]
  rw [List.nodup_append]
  refine ⟨hnd, ?_, ?_⟩
  · simp [ids, hne]
  · intro x hx
    simp only [ids, List.map_cons, List.map_nil, List.mem_cons,
      List.not_mem_nil, or_false]
    exact fun hor => hor.elim (fun e => hu (e ▸ hx)) (fun e => hp (e ▸ hx))

/-- Every sequentially reachable snapshot has pairwise distinct record ids and
obeys the streaming discipline of its in-flight turn. -/
theorem seqReach_inv {s : List Msg} {t : Option Nat} (h : SeqReach s t) :
    (ids s).Nodup ∧ TurnInv s t := by
  induction h with
  | init => exact ⟨List.nodup_nil, fun m hm => absurd hm (List.not_mem_nil m)⟩
  | send s uid aid ts text _ ht hu ha hne ih =>
    obtain ⟨hnd, hinv⟩ := ih
    constructor
    · exact ids_nodup_append_fresh s _ _ hnd hu ha hne
    · intro m hm hstream
      rcases List.mem_append.mp hm with hmem | hup
      · rw [hinv m hmem] at hstream
        cases hstream
      · simp only [List.mem_cons, List.not_mem_nil, or_false] at hup
        rcases hup with rfl | rfl
        · simp [userRecord] at hstream
        · simp [placeholderRecord]
  | frag s aid acc _ ih =>
    obtain ⟨hnd, hinv⟩ := ih
    refine ⟨by rw [ids_applyFragment]; exact hnd, ?_⟩
    intro m hm hs
    obtain ⟨m0, hm0, rfl⟩ := List.mem_map.mp hm
    by_cases h0 : m0.id = aid
    · rw [if_pos h0]; exact h0
    · rw [if_neg h0] at hs ⊢
      exact hinv m0 hm0 hs
  | finalizeTurn s aid _ ih =>
    obtain ⟨hnd, hinv⟩ := ih
    refine ⟨by rw [ids_markDone]; exact hnd, ?_⟩
    intro m hm
    obtain ⟨m0, hm0, rfl⟩ := List.mem_map.mp hm
    by_cases h0 : m0.id = aid
    · simp [if_pos h0]
    · rw [if_neg h0]
      cases hstream : m0.streaming with
      | false => rfl
      | true => exact absurd (hinv m0 hm0 hstream) h0
  | cancelTurn s aid _ ih =>
    obtain ⟨hnd, hinv⟩ := ih
    refine ⟨by rw [ids_markDone]; exact hnd, ?_⟩
    intro m hm
    obtain ⟨m0, hm0, rfl⟩ := List.mem_map.mp hm
    by_cases h0 : m0.id = aid
    · simp [if_pos h0]
    · rw [if_neg h0]
      cases hstream : m0.streaming with
      | false => rfl
      | true => exact absurd (hinv m0 hm0 hstream) h0
  | failTurn s aid _ ih =>
    obtain ⟨hnd, hinv⟩ := ih
    constructor
    · exact hnd.sublist (List.Sublist.map Msg.id (List.filter_sublist s))
    · intro m hm
      have h2 := List.mem_filter.mp hm
      cases hstream : m.streaming with
      | false => rfl
      | true =>
        have h3 := hinv m h2.1 hstream
        have h4 := h2.2
        rw [h3] at h4
        simp at h4
  | clear s t _ _ =>
    refine ⟨List.nodup_nil, ?_⟩
    cases t with
    | none => exact fun m hm => absurd hm (List.not_mem_nil m)
    | some a => exact fun m hm => absurd hm (List.not_mem_nil m)
  | stop s t _ ih => exact ih

theorem applyFrags_not_mem (aid : Nat) (tr : List Msg) (h : aid ∉ ids tr) :
    ∀ (frags : List String) (acc : String), applyFrags aid acc frags tr = tr := by
  intro frags
  induction frags with
  | nil => intro _; rfl
  | cons f rest ih =>
    intro acc
    show applyFrags aid (acc ++ f) rest (applyFragment aid (acc ++ f) tr) = tr
    rw [applyFragment_not_mem aid (acc ++ f) tr h]
    exact ih (acc ++ f)

/-! ### The claims -/

/-- C1: the claim requires a line split across two byte chunks to be
reassembled before processing, so that the spec's split example yields the
fragment "Hi" exactly once. The decode loop keeps no cross-chunk line buffer
(`chunk.split('\n')` is applied to each chunk on its own), so on that very
input the first half fails JSON parsing, the second half lacks the `data: `
marker, and the fragment is lost entirely: the loop yields no fragment. -/
theorem c1_split_line_lost :
    decodeChunks
      ["data: \x7b\"choices\":[\x7b\"delta\":\x7b\"conte",
       "nt\":\"Hi\"\x7d\x7d]\x7d\n"] = [] := by
  rfl

/-- C2 counterexample: the claim says the decode loop terminates after
processing a "[DONE]" line, which would leave any later line unprocessed. The
code executes `continue`, not `break`: a content line arriving after the
sentinel still yields its fragment, so the loop did not terminate there. -/
theorem c2_done_continues :
    decodeChunks
      ["data: [DONE]\n",
       "data: \x7b\"choices\":[\x7b\"delta\":\x7b\"content\":\"X\"\x7d\x7d]\x7d\n"]
      = ["X"] := by
  rfl

/-- C2 amended: a line whose payload is the literal "[DONE]" produces no
fragment and is skipped; the loop terminates only when the byte source is
exhausted, not at the sentinel; decoding the spec's example (the "Hi" event
line followed by "data: [DONE]") yields the single fragment "Hi". -/
theorem c2_done_skipped (ls1 ls2 : List String) :
    decodeLines (ls1 ++ "data: [DONE]" :: ls2)
      = decodeLines ls1 ++ decodeLines ls2
    ∧ decodeChunks
        ["data: \x7b\"choices\":[\x7b\"delta\":\x7b\"content\":\"Hi\"\x7d\x7d]\x7d\n",
         "data: [DONE]\n"] = ["Hi"] := by
  constructor
  · rw [decodeLines_append]
    rfl
  · rfl

/-- C5 counterexample: an assistant record with `streaming = false` and
whitespace-only (hence non-empty) content satisfies the claim's membership
rule, but the code's filter requires `msg.content.trim()` to be truthy and
drops it from the payload. -/
theorem c5_nonempty_vs_nonblank :
    (sendMessage [⟨7, Role.assistant, " ", 0, false⟩] 1 2 0 "hi"
        NetOutcome.httpError).request
      ≠ some (specPayload [⟨7, Role.assistant, " ", 0, false⟩]
          (userRecord 1 0 "hi")) := by
  decide

/-- C5 amended: the payload is exactly the ordered prior messages that are
role=user, or role=assistant with `streaming = false` and non-blank (trimmed
non-empty) content, plus the newly appended user message; streaming records
and blank placeholders never appear (the turn's own placeholder is not even in
the source list the filter runs over). -/
theorem c5_payload_rule (prior : List Msg) (uid aid ts : Nat) (text : String)
    (net : NetOutcome) (ht : jsTrim text ≠ "") :
    (sendMessage prior uid aid ts text net).request
      = some (specPayloadTrim prior (userRecord uid ts text)) := by
  unfold sendMessage
  rw [if_neg ht]
  cases net with
  | httpError => rfl
  | noReader => rfl
  | stream chunks aborted => cases aborted <;> rfl

theorem c5_payload_rule_witness :
    jsTrim "hi" ≠ ""
    ∧ (sendMessage [] 1 2 0 "hi" NetOutcome.httpError).request
        = some (specPayloadTrim [] (userRecord 1 0 "hi")) :=
  ⟨by decide, c5_payload_rule [] 1 2 0 "hi" NetOutcome.httpError (by decide)⟩

/-- C8: `clearMessages` empties the transcript unconditionally, and on any
transcript that no longer contains the placeholder id, the in-flight stream's
fragment applications and its final `streaming := false` commit are exact
no-ops (all the operations are total functions, so nothing can throw). -/
theorem c8_clear_no_resurrect (ms tr : List Msg) (aid : Nat) (acc : String)
    (frags : List String) (h : aid ∉ ids tr) :
    clearMessages ms = []
    ∧ applyFrags aid acc frags tr = tr
    ∧ markDone aid tr = tr :=
  ⟨rfl, applyFrags_not_mem aid tr h frags acc, markDone_not_mem aid tr h⟩

theorem c8_clear_no_resurrect_witness :
    (2 : Nat) ∉ ids []
    ∧ (clearMessages [placeholderRecord 2 0] = []
       ∧ applyFrags 2 "" ["Hel"] [] = []
       ∧ markDone 2 [] = []) :=
  ⟨by decide, c8_clear_no_resurrect [placeholderRecord 2 0] [] 2 "" ["Hel"]
    (by decide)⟩

/-- C9: for input whose trimmed form is empty, `sendMessage` returns before
creating any record or issuing any network call: the transcript is unchanged,
no toast is emitted, and no request is made. -/
theorem c9_blank_noop (prior : List Msg) (uid aid ts : Nat) (text : String)
    (net : NetOutcome) (h : jsTrim text = "") :
    sendMessage prior uid aid ts text net = ⟨prior, 0, none⟩ := by
  unfold sendMessage
  rw [if_pos h]

theorem c9_blank_noop_witness :
    jsTrim "   " = ""
    ∧ sendMessage [userRecord 1 0 "hi"] 2 3 0 "   " NetOutcome.httpError
        = ⟨[userRecord 1 0 "hi"], 0, none⟩ :=
  ⟨by decide, c9_blank_noop [userRecord 1 0 "hi"] 2 3 0 "   "
    NetOutcome.httpError (by decide)⟩

theorem not_mem_ids_append_user (prior : List Msg) (uid aid ts : Nat)
    (text : String) (ha : aid ∉ ids prior) (hne : uid ≠ aid) :
    aid ∉ ids (prior ++ [userRecord uid ts text]) := by
  rw [ids_append, List.mem_append]
  rintro (h | h)
  · exact ha h
  · simp only [ids, List.map_cons, List.map_nil, List.mem_cons,
      List.not_mem_nil, or_false, userRecord] at h
    exact hne h.symm

/-- C3: cancelling via `stopGeneration` after the fragments "Hel" then "lo"
have been applied finalizes rather than discards the partial response: the
`AbortError` branch leaves the placeholder in the transcript with content
"Hello" and `streaming = false`, and emits no error toast. -/
theorem c3_cancel_finalizes (prior : List Msg) (uid aid ts : Nat)
    (text : String) (chunks : List String)
    (ht : jsTrim text ≠ "") (ha : aid ∉ ids prior) (hne : uid ≠ aid)
    (hfr : decodeChunks chunks = ["Hel", "lo"]) :
    (sendMessage prior uid aid ts text (NetOutcome.stream chunks true)).messages
      = prior ++ [userRecord uid ts text,
          ⟨aid, Role.assistant, "Hello", ts, false⟩]
    ∧ (sendMessage prior uid aid ts text (NetOutcome.stream chunks true)).toasts
      = 0 := by
  have hids := not_mem_ids_append_user prior uid aid ts text ha hne
  have hsend : sendMessage prior uid aid ts text (NetOutcome.stream chunks true)
      = ⟨markDone aid (applyFrags aid "" (decodeChunks chunks)
            ((prior ++ [userRecord uid ts text]) ++ [placeholderRecord aid ts])),
         0, some (apiMessages prior (userRecord uid ts text))⟩ := by
    unfold sendMessage
    rw [if_neg ht]
    rfl
  rw [hsend, hfr]
  constructor
  · show markDone aid (applyFrags aid "" ["Hel", "lo"] _) = _
    rw [applyFrags_last aid _ hids ["Hel", "lo"] "" (placeholderRecord aid ts)
        rfl (by simp),
      markDone_last aid _ _ hids rfl, List.append_assoc]
    rfl
  · rfl

theorem c3_cancel_finalizes_witness :
    jsTrim "hi" ≠ ""
    ∧ decodeChunks
        ["data: \x7b\"choices\":[\x7b\"delta\":\x7b\"content\":\"Hel\"\x7d\x7d]\x7d\n",
         "data: \x7b\"choices\":[\x7b\"delta\":\x7b\"content\":\"lo\"\x7d\x7d]\x7d\n"]
        = ["Hel", "lo"]
    ∧ ((sendMessage [] 1 2 0 "hi" (NetOutcome.stream
          ["data: \x7b\"choices\":[\x7b\"delta\":\x7b\"content\":\"Hel\"\x7d\x7d]\x7d\n",
           "data: \x7b\"choices\":[\x7b\"delta\":\x7b\"content\":\"lo\"\x7d\x7d]\x7d\n"]
          true)).messages
        = [userRecord 1 0 "hi", ⟨2, Role.assistant, "Hello", 0, false⟩]
       ∧ (sendMessage [] 1 2 0 "hi" (NetOutcome.stream
            ["data: \x7b\"choices\":[\x7b\"delta\":\x7b\"content\":\"Hel\"\x7d\x7d]\x7d\n",
             "data: \x7b\"choices\":[\x7b\"delta\":\x7b\"content\":\"lo\"\x7d\x7d]\x7d\n"]
            true)).toasts = 0) :=
  ⟨by decide, rfl,
   c3_cancel_finalizes [] 1 2 0 "hi"
     ["data: \x7b\"choices\":[\x7b\"delta\":\x7b\"content\":\"Hel\"\x7d\x7d]\x7d\n",
      "data: \x7b\"choices\":[\x7b\"delta\":\x7b\"content\":\"lo\"\x7d\x7d]\x7d\n"]
     (by decide) (by decide) (by decide) rfl⟩

/-- C4: on a non-cancellation failure (non-success HTTP status or absent body
reader) the placeholder is removed, the user's own record is retained, and
exactly one error toast is emitted. -/
theorem c4_failure_removes_placeholder (prior : List Msg) (uid aid ts : Nat)
    (text : String) (net : NetOutcome) (ht : jsTrim text ≠ "")
    (ha : aid ∉ ids prior) (hne : uid ≠ aid)
    (hnet : net = NetOutcome.httpError ∨ net = NetOutcome.noReader) :
    (sendMessage prior uid aid ts text net).messages
      = prior ++ [userRecord uid ts text]
    ∧ (sendMessage prior uid aid ts text net).toasts = 1 := by
  have hids := not_mem_ids_append_user prior uid aid ts text ha hne
  rcases hnet with rfl | rfl
  · have hsend : sendMessage prior uid aid ts text NetOutcome.httpError
        = ⟨removeRecord aid
              ((prior ++ [userRecord uid ts text]) ++ [placeholderRecord aid ts]),
           1, some (apiMessages prior (userRecord uid ts text))⟩ := by
      unfold sendMessage
      rw [if_neg ht]
    rw [hsend]
    exact ⟨removeRecord_last aid _ _ hids rfl, rfl⟩
  · have hsend : sendMessage prior uid aid ts text NetOutcome.noReader
        = ⟨removeRecord aid
              ((prior ++ [userRecord uid ts text]) ++ [placeholderRecord aid ts]),
           1, some (apiMessages prior (userRecord uid ts text))⟩ := by
      unfold sendMessage
      rw [if_neg ht]
    rw [hsend]
    exact ⟨removeRecord_last aid _ _ hids rfl, rfl⟩

theorem c4_failure_removes_placeholder_witness :
    jsTrim "hi" ≠ ""
    ∧ ((sendMessage [] 1 2 0 "hi" NetOutcome.httpError).messages
        = [userRecord 1 0 "hi"]
       ∧ (sendMessage [] 1 2 0 "hi" NetOutcome.httpError).toasts = 1) :=
  ⟨by decide,
   c4_failure_removes_placeholder [] 1 2 0 "hi" NetOutcome.httpError
     (by decide) (by decide) (by decide) (Or.inl rfl)⟩

/-- C6: a line whose payload fails JSON parsing is skipped silently: it yields
no fragment, the lines before and after it still yield theirs, and the
streaming path emits no error toast (the `catch` around `JSON.parse` swallows
the failure). -/
theorem c6_malformed_line_skipped (ls1 ls2 : List String) (bad : String)
    (prior : List Msg) (uid aid ts : Nat) (text : String)
    (chunks : List String) (ab : Bool)
    (h : jsonParse (strDrop bad 6) = none) :
    decodeLines (ls1 ++ bad :: ls2) = decodeLines ls1 ++ decodeLines ls2
    ∧ (sendMessage prior uid aid ts text (NetOutcome.stream chunks ab)).toasts
      = 0 := by
  constructor
  · rw [decodeLines_append]
    congr 1
    show List.filterMap decodeLine (bad :: ls2) = decodeLines ls2
    rw [List.filterMap_cons, decodeLine_none_of_parse_fail bad h]
    rfl
  · unfold sendMessage
    by_cases he : jsTrim text = ""
    · rw [if_pos he]
    · rw [if_neg he]
      cases ab <;> rfl

theorem c6_malformed_line_skipped_witness :
    jsonParse (strDrop "data: \x7bnot json" 6) = none
    ∧ (decodeLines
          ["data: \x7b\"choices\":[\x7b\"delta\":\x7b\"content\":\"A\"\x7d\x7d]\x7d",
           "data: \x7bnot json",
           "data: \x7b\"choices\":[\x7b\"delta\":\x7b\"content\":\"B\"\x7d\x7d]\x7d"]
        = decodeLines
            ["data: \x7b\"choices\":[\x7b\"delta\":\x7b\"content\":\"A\"\x7d\x7d]\x7d"]
          ++ decodeLines
            ["data: \x7b\"choices\":[\x7b\"delta\":\x7b\"content\":\"B\"\x7d\x7d]\x7d"]
       ∧ (sendMessage [] 1 2 0 "q" (NetOutcome.stream [] false)).toasts = 0) :=
  ⟨rfl,
   c6_malformed_line_skipped
     ["data: \x7b\"choices\":[\x7b\"delta\":\x7b\"content\":\"A\"\x7d\x7d]\x7d"]
     ["data: \x7b\"choices\":[\x7b\"delta\":\x7b\"content\":\"B\"\x7d\x7d]\x7d"]
     "data: \x7bnot json" [] 1 2 0 "q" [] false rfl⟩

/-- C7 counterexample: the code never guards against a second `sendMessage`
starting while another turn is still in flight, so the snapshot after two
interleaved turn starts is reachable and holds two records with
`streaming = true`, refuting the claim's "at most one" over all reachable
snapshots. -/
theorem c7_two_streaming_records :
    CodeReach [userRecord 1 0 "a", placeholderRecord 2 0,
      userRecord 3 0 "b", placeholderRecord 4 0]
    ∧ countStreaming [userRecord 1 0 "a", placeholderRecord 2 0,
        userRecord 3 0 "b", placeholderRecord 4 0] = 2 := by
  constructor
  · have h1 : CodeReach ([] ++ [userRecord 1 0 "a", placeholderRecord 2 0]) :=
      CodeReach.send [] 1 2 0 "a" CodeReach.init (by decide) (by decide)
        (by decide) (by decide)
    exact CodeReach.send _ 3 4 0 "b" h1 (by decide) (by decide) (by decide)
      (by decide)
  · decide

/-- C7 amended: provided turns are sequential (a new `sendMessage` starts only
after the previous turn reached a terminal state — the discipline `SeqReach`
enforces, while `stopGeneration` and `clearMessages` may still interleave),
every reachable snapshot has at most one record with `streaming = true`, and
`isStreaming` is true iff some current record has `streaming = true`. -/
theorem c7_sequential_at_most_one (s : List Msg) (t : Option Nat)
    (h : SeqReach s t) :
    countStreaming s ≤ 1
    ∧ (isStreaming s = true ↔ ∃ m ∈ s, m.streaming = true) := by
  obtain ⟨hnd, hinv⟩ := seqReach_inv h
  constructor
  · cases t with
    | none => rw [countStreaming_eq_zero s hinv]; exact Nat.zero_le 1
    | some a => exact countStreaming_le_one s a hnd hinv
  · simp [isStreaming, List.any_eq_true]

theorem c7_sequential_witness :
    countStreaming [userRecord 1 0 "hi", placeholderRecord 2 0] ≤ 1
    ∧ (isStreaming [userRecord 1 0 "hi", placeholderRecord 2 0] = true
       ↔ ∃ m ∈ [userRecord 1 0 "hi", placeholderRecord 2 0],
           m.streaming = true) :=
  c7_sequential_at_most_one _ (some 2)
    (SeqReach.send [] 1 2 0 "hi" SeqReach.init (by decide) (by decide)
      (by decide) (by decide))

/-- C10: the user record appended by `sendMessage` carries the trimmed input,
not the raw text, and the outbound payload's final entry is therefore the
trimmed form as well. -/
theorem c10_trimmed_not_raw (prior : List Msg) (uid aid ts : Nat)
    (text : String) (net : NetOutcome) (ht : jsTrim text ≠ "")
    (hne : uid ≠ aid) :
    (userRecord uid ts text).content = jsTrim text
    ∧ userRecord uid ts text ∈ (sendMessage prior uid aid ts text net).messages
    ∧ (sendMessage prior uid aid ts text net).request
        = some (apiMessages prior (userRecord uid ts text))
    ∧ (apiMessages prior (userRecord uid ts text)).getLast?
        = some (Role.user, jsTrim text) := by
  have hmem : userRecord uid ts text
      ∈ (prior ++ [userRecord uid ts text]) ++ [placeholderRecord aid ts] := by
    simp
  have hid : (userRecord uid ts text).id ≠ aid := hne
  have hlast : (apiMessages prior (userRecord uid ts text)).getLast?
      = some (Role.user, jsTrim text) := by
    have heq : apiMessages prior (userRecord uid ts text)
        = (List.filter apiFilter prior).map (fun m => (m.role, m.content))
          ++ [(Role.user, jsTrim text)] := by
      unfold apiMessages
      rw [List.filter_append]
      simp [List.filter_cons, apiFilter, userRecord]
    rw [heq, List.getLast?_concat]
  refine ⟨rfl, ?_, ?_, hlast⟩
  · cases net with
    | httpError =>
      have hsend : sendMessage prior uid aid ts text NetOutcome.httpError
          = ⟨removeRecord aid
                ((prior ++ [userRecord uid ts text]) ++ [placeholderRecord aid ts]),
             1, some (apiMessages prior (userRecord uid ts text))⟩ := by
        unfold sendMessage
        rw [if_neg ht]
      rw [hsend]
      exact List.mem_filter.mpr ⟨hmem, by simpa using hid⟩
    | noReader =>
      have hsend : sendMessage prior uid aid ts text NetOutcome.noReader
          = ⟨removeRecord aid
                ((prior ++ [userRecord uid ts text]) ++ [placeholderRecord aid ts]),
             1, some (apiMessages prior (userRecord uid ts text))⟩ := by
        unfold sendMessage
        rw [if_neg ht]
      rw [hsend]
      exact List.mem_filter.mpr ⟨hmem, by simpa using hid⟩
    | stream chunks aborted =>
      have hsend : sendMessage prior uid aid ts text
            (NetOutcome.stream chunks aborted)
          = ⟨markDone aid (applyFrags aid "" (decodeChunks chunks)
                ((prior ++ [userRecord uid ts text])
                  ++ [placeholderRecord aid ts])),
             0, some (apiMessages prior (userRecord uid ts text))⟩ := by
        cases aborted <;> (unfold sendMessage; rw [if_neg ht]; rfl)
      rw [hsend]
      exact mem_markDone_of_ne aid _ _
        (mem_applyFrags_of_ne aid _ hid (decodeChunks chunks) "" _ hmem) hid
  · cases net with
    | httpError =>
      unfold sendMessage
      rw [if_neg ht]
    | noReader =>
      unfold sendMessage
      rw [if_neg ht]
    | stream chunks aborted =>
      cases aborted <;> (unfold sendMessage; rw [if_neg ht]; rfl)

theorem c10_trimmed_not_raw_witness :
    jsTrim " hi " ≠ ""
    ∧ ((userRecord 1 0 " hi ").content = jsTrim " hi "
       ∧ userRecord 1 0 " hi "
           ∈ (sendMessage [] 1 2 0 " hi " NetOutcome.httpError).messages
       ∧ (sendMessage [] 1 2 0 " hi " NetOutcome.httpError).request
           = some (apiMessages [] (userRecord 1 0 " hi "))
       ∧ (apiMessages [] (userRecord 1 0 " hi ")).getLast?
           = some (Role.user, jsTrim " hi ")) :=
  ⟨by decide,
   c10_trimmed_not_raw [] 1 2 0 " hi " NetOutcome.httpError (by decide)
     (by decide)⟩

end PromptPond
